import Mathlib

/-!
Shallow embedding of `src/rsvg_internals/src/properties.rs` (CSS property
storage and cascade resolution of librsvg's rsvg_internals crate).

Conventions of the embedding:
* Machine integers (`u8`, `usize`) are modelled as `Nat`; the one narrowing
  conversion `pos as u8` in `set_property` is modelled as `pos % 256` at the
  write site.
* Rust panics (`unreachable!`, out-of-bounds indexing) are modelled by
  returning `none` from an `Option`-valued function.
* The per-kind value types and `Property` trait implementations live in
  `property_defs.rs` / `property_macros.rs`, which are not part of the source
  under inspection; they are modelled abstractly: a single payload type `V`
  stands for the per-kind concrete value types, and a `PropertyImpl` record
  carries a kind's `inherits_automatically` flag, default value and `compute`
  finalization, exactly the surface of the Rust `Property` trait used by
  `properties.rs`.
-/

/-- Mirror of `enum PropertyId` (properties.rs lines 126-178): one
discriminant per property kind plus the `UnsetProperty` sentinel, which is
also the number of valid discriminants (48). -/
inductive PropertyId where
  | BaselineShift
  | ClipPath
  | ClipRule
  | Color
  | ColorInterpolationFilters
  | Direction
  | Display
  | EnableBackground
  | Fill
  | FillOpacity
  | FillRule
  | Filter
  | FloodColor
  | FloodOpacity
  | FontFamily
  | FontSize
  | FontStretch
  | FontStyle
  | FontVariant
  | FontWeight
  | LetterSpacing
  | LightingColor
  | Marker
  | MarkerEnd
  | MarkerMid
  | MarkerStart
  | Mask
  | Opacity
  | Overflow
  | ShapeRendering
  | StopColor
  | StopOpacity
  | Stroke
  | StrokeDasharray
  | StrokeDashoffset
  | StrokeLinecap
  | StrokeLinejoin
  | StrokeOpacity
  | StrokeMiterlimit
  | StrokeWidth
  | TextAnchor
  | TextDecoration
  | TextRendering
  | UnicodeBidi
  | Visibility
  | WritingMode
  | XmlLang
  | XmlSpace
  | UnsetProperty
  deriving DecidableEq, Fintype, Repr

/-- Mirror of `PropertyId::as_u8` / `as_usize`: the `#[repr(u8)]`
discriminant value, following the declaration order of the Rust enum. -/
def PropertyId.toNat : PropertyId → Nat
  | .BaselineShift => 0
  | .ClipPath => 1
  | .ClipRule => 2
  | .Color => 3
  | .ColorInterpolationFilters => 4
  | .Direction => 5
  | .Display => 6
  | .EnableBackground => 7
  | .Fill => 8
  | .FillOpacity => 9
  | .FillRule => 10
  | .Filter => 11
  | .FloodColor => 12
  | .FloodOpacity => 13
  | .FontFamily => 14
  | .FontSize => 15
  | .FontStretch => 16
  | .FontStyle => 17
  | .FontVariant => 18
  | .FontWeight => 19
  | .LetterSpacing => 20
  | .LightingColor => 21
  | .Marker => 22
  | .MarkerEnd => 23
  | .MarkerMid => 24
  | .MarkerStart => 25
  | .Mask => 26
  | .Opacity => 27
  | .Overflow => 28
  | .ShapeRendering => 29
  | .StopColor => 30
  | .StopOpacity => 31
  | .Stroke => 32
  | .StrokeDasharray => 33
  | .StrokeDashoffset => 34
  | .StrokeLinecap => 35
  | .StrokeLinejoin => 36
  | .StrokeOpacity => 37
  | .StrokeMiterlimit => 38
  | .StrokeWidth => 39
  | .TextAnchor => 40
  | .TextDecoration => 41
  | .TextRendering => 42
  | .UnicodeBidi => 43
  | .Visibility => 44
  | .WritingMode => 45
  | .XmlLang => 46
  | .XmlSpace => 47
  | .UnsetProperty => 48

/-- Mirror of `enum SpecifiedValue<T>` (lines 26-34): the three-state
specified value of one property. -/
inductive SpecifiedValue (V : Type) where
  | Unspecified
  | Inherit
  | Specified (v : V)
  deriving DecidableEq, Repr

/-- Modelled from the spec: the surface of the Rust `Property<ComputedValues>`
trait that `properties.rs` uses (the per-kind implementations are generated in
`property_defs.rs`, which is not among the sources under inspection).  Each
property kind supplies its "inherits automatically" flag, its type default,
and its `compute` finalization, which may read the element's in-progress
computed values. -/
structure PropertyImpl (V CV : Type) where
  inherits_automatically : Bool
  defaultVal : V
  compute : V → CV → V

/-- Mirror of `SpecifiedValue::compute` (lines 40-56): resolve the three
states against the parent's computed field `src`, then apply the
kind-specific finalization against `src_values`. -/
def SpecifiedValue.compute {V CV : Type} (sv : SpecifiedValue V)
    (P : PropertyImpl V CV) (src : V) (src_values : CV) : V :=
  let value : V :=
    match sv with
    | .Unspecified => if P.inherits_automatically then src else P.defaultVal
    | .Inherit => src
    | .Specified v => v
  P.compute value src_values

set_option maxHeartbeats 1600000 in
/-- Mirror of `enum ParsedProperty` (lines 70-119): "which property is this"
plus the property's specified value.  The per-kind payload types are
uniformly modelled by `V` (their definitions are outside the inspected
sources); the `Marker` variant is the one shorthand. -/
inductive ParsedProperty (V : Type) where
  | BaselineShift (v : SpecifiedValue V)
  | ClipPath (v : SpecifiedValue V)
  | ClipRule (v : SpecifiedValue V)
  | Color (v : SpecifiedValue V)
  | ColorInterpolationFilters (v : SpecifiedValue V)
  | Direction (v : SpecifiedValue V)
  | Display (v : SpecifiedValue V)
  | EnableBackground (v : SpecifiedValue V)
  | Fill (v : SpecifiedValue V)
  | FillOpacity (v : SpecifiedValue V)
  | FillRule (v : SpecifiedValue V)
  | Filter (v : SpecifiedValue V)
  | FloodColor (v : SpecifiedValue V)
  | FloodOpacity (v : SpecifiedValue V)
  | FontFamily (v : SpecifiedValue V)
  | FontSize (v : SpecifiedValue V)
  | FontStretch (v : SpecifiedValue V)
  | FontStyle (v : SpecifiedValue V)
  | FontVariant (v : SpecifiedValue V)
  | FontWeight (v : SpecifiedValue V)
  | LetterSpacing (v : SpecifiedValue V)
  | LightingColor (v : SpecifiedValue V)
  | Marker (v : SpecifiedValue V)
  | MarkerEnd (v : SpecifiedValue V)
  | MarkerMid (v : SpecifiedValue V)
  | MarkerStart (v : SpecifiedValue V)
  | Mask (v : SpecifiedValue V)
  | Opacity (v : SpecifiedValue V)
  | Overflow (v : SpecifiedValue V)
  | ShapeRendering (v : SpecifiedValue V)
  | StopColor (v : SpecifiedValue V)
  | StopOpacity (v : SpecifiedValue V)
  | Stroke (v : SpecifiedValue V)
  | StrokeDasharray (v : SpecifiedValue V)
  | StrokeDashoffset (v : SpecifiedValue V)
  | StrokeLinecap (v : SpecifiedValue V)
  | StrokeLinejoin (v : SpecifiedValue V)
  | StrokeOpacity (v : SpecifiedValue V)
  | StrokeMiterlimit (v : SpecifiedValue V)
  | StrokeWidth (v : SpecifiedValue V)
  | TextAnchor (v : SpecifiedValue V)
  | TextDecoration (v : SpecifiedValue V)
  | TextRendering (v : SpecifiedValue V)
  | UnicodeBidi (v : SpecifiedValue V)
  | Visibility (v : SpecifiedValue V)
  | WritingMode (v : SpecifiedValue V)
  | XmlLang (v : SpecifiedValue V)
  | XmlSpace (v : SpecifiedValue V)
  deriving DecidableEq, Repr

/-- Mirror of `ParsedProperty::get_property_id` (lines 182-235): match each
variant to its discriminant. -/
def ParsedProperty.get_property_id {V : Type} : ParsedProperty V → PropertyId
  | .BaselineShift _ => .BaselineShift
  | .ClipPath _ => .ClipPath
  | .ClipRule _ => .ClipRule
  | .Color _ => .Color
  | .ColorInterpolationFilters _ => .ColorInterpolationFilters
  | .Direction _ => .Direction
  | .Display _ => .Display
  | .EnableBackground _ => .EnableBackground
  | .Fill _ => .Fill
  | .FillOpacity _ => .FillOpacity
  | .FillRule _ => .FillRule
  | .Filter _ => .Filter
  | .FloodColor _ => .FloodColor
  | .FloodOpacity _ => .FloodOpacity
  | .FontFamily _ => .FontFamily
  | .FontSize _ => .FontSize
  | .FontStretch _ => .FontStretch
  | .FontStyle _ => .FontStyle
  | .FontVariant _ => .FontVariant
  | .FontWeight _ => .FontWeight
  | .LetterSpacing _ => .LetterSpacing
  | .LightingColor _ => .LightingColor
  | .Marker _ => .Marker
  | .MarkerEnd _ => .MarkerEnd
  | .MarkerMid _ => .MarkerMid
  | .MarkerStart _ => .MarkerStart
  | .Mask _ => .Mask
  | .Opacity _ => .Opacity
  | .Overflow _ => .Overflow
  | .ShapeRendering _ => .ShapeRendering
  | .StopColor _ => .StopColor
  | .StopOpacity _ => .StopOpacity
  | .Stroke _ => .Stroke
  | .StrokeDasharray _ => .StrokeDasharray
  | .StrokeDashoffset _ => .StrokeDashoffset
  | .StrokeLinecap _ => .StrokeLinecap
  | .StrokeLinejoin _ => .StrokeLinejoin
  | .StrokeOpacity _ => .StrokeOpacity
  | .StrokeMiterlimit _ => .StrokeMiterlimit
  | .StrokeWidth _ => .StrokeWidth
  | .TextAnchor _ => .TextAnchor
  | .TextDecoration _ => .TextDecoration
  | .TextRendering _ => .TextRendering
  | .UnicodeBidi _ => .UnicodeBidi
  | .Visibility _ => .Visibility
  | .WritingMode _ => .WritingMode
  | .XmlLang _ => .XmlLang
  | .XmlSpace _ => .XmlSpace

/-- The specified value carried by a `ParsedProperty` variant.  In the Rust
source this extraction is done by the variant pattern matches of
`to_computed_values`'s `compute!` macro (lines 544-549); with the uniform
payload model it is a single total function. -/
def ParsedProperty.payload {V : Type} : ParsedProperty V → SpecifiedValue V
  | .BaselineShift v => v
  | .ClipPath v => v
  | .ClipRule v => v
  | .Color v => v
  | .ColorInterpolationFilters v => v
  | .Direction v => v
  | .Display v => v
  | .EnableBackground v => v
  | .Fill v => v
  | .FillOpacity v => v
  | .FillRule v => v
  | .Filter v => v
  | .FloodColor v => v
  | .FloodOpacity v => v
  | .FontFamily v => v
  | .FontSize v => v
  | .FontStretch v => v
  | .FontStyle v => v
  | .FontVariant v => v
  | .FontWeight v => v
  | .LetterSpacing v => v
  | .LightingColor v => v
  | .Marker v => v
  | .MarkerEnd v => v
  | .MarkerMid v => v
  | .MarkerStart v => v
  | .Mask v => v
  | .Opacity v => v
  | .Overflow v => v
  | .ShapeRendering v => v
  | .StopColor v => v
  | .StopOpacity v => v
  | .Stroke v => v
  | .StrokeDasharray v => v
  | .StrokeDashoffset v => v
  | .StrokeLinecap v => v
  | .StrokeLinejoin v => v
  | .StrokeOpacity v => v
  | .StrokeMiterlimit v => v
  | .StrokeWidth v => v
  | .TextAnchor v => v
  | .TextDecoration v => v
  | .TextRendering v => v
  | .UnicodeBidi v => v
  | .Visibility v => v
  | .WritingMode v => v
  | .XmlLang v => v
  | .XmlSpace v => v

/-- Mirror of `struct SpecifiedValues` (lines 250-253).  `indices` models the
fixed `[u8; 48]` lookup array indexed by `PropertyId::as_usize`, as a total
map from discriminants (the `UnsetProperty` component is padding that is
never read or written: the Rust array has exactly 48 entries); `u8` values
are `Nat`s kept below 256 at the write site.  `props` is the append-only
slot sequence. -/
structure SpecifiedValues (V : Type) where
  indices : PropertyId → Nat
  props : List (ParsedProperty V)

/-- Mirror of `impl Default for SpecifiedValues` (lines 255-263): every
lookup entry holds the `UnsetProperty` sentinel (48) and the slot sequence
is empty. -/
def SpecifiedValues.default (V : Type) : SpecifiedValues V :=
  { indices := fun _ => PropertyId.UnsetProperty.toNat
    props := [] }

/-- Mirror of `SpecifiedValues::property_index` (lines 489-497): read the
lookup entry, mapping the sentinel to `none`. -/
def SpecifiedValues.property_index {V : Type} (s : SpecifiedValues V)
    (id : PropertyId) : Option Nat :=
  let v := s.indices id
  if v = PropertyId.UnsetProperty.toNat then none else some v

/-- Mirror of `SpecifiedValues::set_property` (lines 499-515).  The
`unreachable!("should have processed shorthands earlier")` for the `Marker`
discriminant and the (panicking) slot assignment `self.props[index] = ...`
on an out-of-range index are modelled as `none`.  The narrowing `pos as u8`
is modelled as `pos % 256`. -/
def SpecifiedValues.set_property {V : Type} (s : SpecifiedValues V)
    (prop : ParsedProperty V) (replace : Bool) : Option (SpecifiedValues V) :=
  let id := prop.get_property_id
  if id = PropertyId.Marker then
    none
  else
    match s.property_index id with
    | some index =>
        if replace then
          if index < s.props.length then
            some { s with props := s.props.set index prop }
          else
            none
        else
          some s
    | none =>
        let props' := s.props ++ [prop]
        let pos := props'.length - 1
        some { indices := fun j => if j = id then pos % 256 else s.indices j
               props := props' }

/-- Mirror of `SpecifiedValues::set_property_expanding_shorthands`
(lines 517-530): the `marker` shorthand with a `Specified` value is expanded
into `marker-start` / `marker-mid` / `marker-end`; everything else is stored
directly.  (In the Rust source each expanded value is rewrapped in the
longhand's newtype, e.g. `MarkerStart(v.clone())`; with the uniform payload
model the same `v` is carried by each longhand variant.) -/
def SpecifiedValues.set_property_expanding_shorthands {V : Type}
    (s : SpecifiedValues V) (prop : ParsedProperty V) (replace : Bool) :
    Option (SpecifiedValues V) :=
  match prop with
  | .Marker (.Specified v) => do
      let s1 ← s.set_property (.MarkerStart (.Specified v)) replace
      let s2 ← s1.set_property (.MarkerMid (.Specified v)) replace
      s2.set_property (.MarkerEnd (.Specified v)) replace
  | _ => s.set_property prop replace

/-- Mirror of `SpecifiedValues::set_parsed_property` (lines 532-534):
author-priority entry point, `replace = true`. -/
def SpecifiedValues.set_parsed_property {V : Type} (s : SpecifiedValues V)
    (prop : ParsedProperty V) : Option (SpecifiedValues V) :=
  s.set_property_expanding_shorthands prop true

/-- Mirror of `SpecifiedValues::set_parsed_property_user_agent`
(lines 537-539): user-agent priority, `replace = false`. -/
def SpecifiedValues.set_parsed_property_user_agent {V : Type}
    (s : SpecifiedValues V) (prop : ParsedProperty V) :
    Option (SpecifiedValues V) :=
  s.set_property_expanding_shorthands prop false

/-- Mirror of `struct ComputedValues` (lines 265-314): one field per
property kind, modelled as a total map from discriminants to the uniform
payload type.  (The Rust record has 47 fields: every kind except the
`Marker` shorthand; the `Marker` and `UnsetProperty` components of this map
are padding that `to_computed_values` never reads or writes.) -/
def ComputedValues (V : Type) : Type := PropertyId → V

/-- Functional update of one `ComputedValues` field, modelling the
assignment `computed.$field = ...` of the `compute!` macro. -/
def updateCV {V : Type} (cv : ComputedValues V) (id : PropertyId) (v : V) :
    ComputedValues V :=
  fun j => if j = id then v else cv j

/-- Modelled from the spec: the catalogue of per-kind `Property` trait
implementations (generated in `property_defs.rs`, which is not among the
inspected sources), one `PropertyImpl` per discriminant.  The `Marker` and
`UnsetProperty` components are unused padding. -/
def Catalogue (V : Type) : Type := PropertyId → PropertyImpl V (ComputedValues V)

/-- The exact order in which `to_computed_values` (lines 541-612) invokes the
`compute!` macro: `FontSize` first, then the remaining 46 kinds in the
source's textual order.  The `Marker` shorthand has no computed field and
does not appear. -/
def computeOrder : List PropertyId :=
  [ .FontSize
  , .BaselineShift
  , .ClipPath
  , .ClipRule
  , .Color
  , .ColorInterpolationFilters
  , .Direction
  , .Display
  , .EnableBackground
  , .Fill
  , .FillOpacity
  , .FillRule
  , .Filter
  , .FloodColor
  , .FloodOpacity
  , .FontFamily
  , .FontStretch
  , .FontStyle
  , .FontVariant
  , .FontWeight
  , .LetterSpacing
  , .LightingColor
  , .MarkerEnd
  , .MarkerMid
  , .MarkerStart
  , .Mask
  , .Opacity
  , .Overflow
  , .ShapeRendering
  , .StopColor
  , .StopOpacity
  , .Stroke
  , .StrokeDasharray
  , .StrokeDashoffset
  , .StrokeLinecap
  , .StrokeLinejoin
  , .StrokeOpacity
  , .StrokeMiterlimit
  , .StrokeWidth
  , .TextAnchor
  , .TextDecoration
  , .TextRendering
  , .UnicodeBidi
  , .Visibility
  , .WritingMode
  , .XmlLang
  , .XmlSpace ]

/-- Mirror of one `compute!($name, $field)` expansion inside
`to_computed_values` (lines 542-554): if the store holds a slot for the kind,
the slot must carry the matching variant (otherwise the macro's
`unreachable!()`, modelled as `none`; a dangling slot index likewise panics)
and its specified value is resolved; with no slot an `Unspecified` value is
resolved.  The result is written to the kind's field. -/
def computeProp {V : Type} (C : Catalogue V) (s : SpecifiedValues V)
    (id : PropertyId) (cv : ComputedValues V) : Option (ComputedValues V) :=
  match s.property_index id with
  | some index =>
      match s.props[index]? with
      | some p =>
          if p.get_property_id = id then
            some (updateCV cv id (p.payload.compute (C id) (cv id) cv))
          else
            none
      | none => none
  | none =>
      some (updateCV cv id ((SpecifiedValue.Unspecified).compute (C id) (cv id) cv))

/-- Mirror of `SpecifiedValues::to_computed_values` (lines 541-612): the
`computed` record arrives pre-seeded with the parent's computed values and
each kind's field is resolved in `computeOrder` (`FontSize` first). -/
def SpecifiedValues.to_computed_values {V : Type} (C : Catalogue V)
    (s : SpecifiedValues V) (cv : ComputedValues V) :
    Option (ComputedValues V) :=
  computeOrder.foldlM (fun acc id => computeProp C s id acc) cv

/-- The slot stored for a discriminant, when any: `property_index` followed
by the slot read.  Used to phrase where cascade resolution takes a kind's
specified value from. -/
def SpecifiedValues.lookup {V : Type} (s : SpecifiedValues V)
    (id : PropertyId) : Option (ParsedProperty V) :=
  (s.property_index id).bind (fun i => s.props[i]?)

/-- The specified value that `to_computed_values` resolves for a
discriminant: the stored slot's payload when a slot exists, `Unspecified`
otherwise (lines 544-553). -/
def SpecifiedValues.specAt {V : Type} (s : SpecifiedValues V)
    (id : PropertyId) : SpecifiedValue V :=
  match s.lookup id with
  | some p => p.payload
  | none => SpecifiedValue.Unspecified

/-- Modelled from the spec: the declaration origin tiers (`css.rs` is not
among the inspected sources; §6 of the spec gives
`origin: UserAgent | Author`). -/
inductive Origin where
  | UserAgent
  | Author
  deriving DecidableEq, Repr

/-- Modelled from the spec: one stylesheet declaration
`{ property, important, origin-supplied-separately }` (§6); `prop_name`
models the `QualName` key used by the important-styles set, abstracted to a
name type `N`. -/
structure Declaration (N V : Type) where
  prop_name : N
  property : ParsedProperty V
  important : Bool

/-- Set-insertion into the important-styles set, modelling
`HashSet::insert` (membership-based, order of the model list irrelevant). -/
def insertName {N : Type} [DecidableEq N] (n : N) (styles : List N) : List N :=
  if n ∈ styles then styles else n :: styles

/-- Mirror of `SpecifiedValues::set_property_from_declaration`
(lines 737-756): drop a non-important declaration whose name is already in
the important-styles set; record an important declaration's name; apply with
`replace = false` for user-agent origin and `replace = true` otherwise.  The
updated important-styles set is returned alongside the store (the Rust code
mutates it in place); `none` models a panic inside the storage layer. -/
def SpecifiedValues.set_property_from_declaration {N V : Type} [DecidableEq N]
    (s : SpecifiedValues V) (declaration : Declaration N V) (origin : Origin)
    (important_styles : List N) : Option (SpecifiedValues V × List N) :=
  if declaration.important = false ∧ declaration.prop_name ∈ important_styles then
    some (s, important_styles)
  else
    let styles' :=
      if declaration.important then insertName declaration.prop_name important_styles
      else important_styles
    if origin = Origin.UserAgent then
      (s.set_parsed_property_user_agent declaration.property).map (fun s' => (s', styles'))
    else
      (s.set_parsed_property declaration.property).map (fun s' => (s', styles'))

/-- The error classes distinguished by the match arms of
`parse_one_presentation_attribute` (lines 638-701): the custom
`UnknownProperty` error, the basic `UnexpectedToken` / `EndOfInput` errors,
any other basic error, and any other custom error. -/
inductive ParseErrKind where
  | unknownProperty
  | unexpectedToken
  | endOfInput
  | otherBasic
  | otherCustom
  deriving DecidableEq, Repr

/-- Abstraction of one raw attribute value as seen by `parse_input`
(lines 782-794): either the literal `inherit` keyword, a successfully parsed
value of the kind's type, or a value-level parse error.  (The tokenizer and
the per-kind `Parse` implementations are external to the inspected
sources.) -/
inductive ValueOutcome (V : Type) where
  | inherit
  | ok (v : V)
  | err (e : ParseErrKind)
  deriving DecidableEq, Repr

/-- Mirror of `parse_input` (lines 782-794): `inherit` parses to
`SpecifiedValue::Inherit`, otherwise the kind's parser decides. -/
def parse_input {V : Type} (vo : ValueOutcome V) :
    Except ParseErrKind (SpecifiedValue V) :=
  match vo with
  | .inherit => .ok .Inherit
  | .ok v => .ok (.Specified v)
  | .err e => .error e

/-- The longhand constructor used by `parse_property` (lines 317-469) for a
property name's discriminant: `none` for the discriminants that have no CSS
property name arm there (`Marker` is handled by its own guarded arm;
`XmlLang` / `XmlSpace` are non-presentation attributes with no arm;
`UnsetProperty` is the sentinel). -/
def mkLonghand {V : Type} (id : PropertyId) :
    Option (SpecifiedValue V → ParsedProperty V) :=
  match id with
  | .BaselineShift => some .BaselineShift
  | .ClipPath => some .ClipPath
  | .ClipRule => some .ClipRule
  | .Color => some .Color
  | .ColorInterpolationFilters => some .ColorInterpolationFilters
  | .Direction => some .Direction
  | .Display => some .Display
  | .EnableBackground => some .EnableBackground
  | .Fill => some .Fill
  | .FillOpacity => some .FillOpacity
  | .FillRule => some .FillRule
  | .Filter => some .Filter
  | .FloodColor => some .FloodColor
  | .FloodOpacity => some .FloodOpacity
  | .FontFamily => some .FontFamily
  | .FontSize => some .FontSize
  | .FontStretch => some .FontStretch
  | .FontStyle => some .FontStyle
  | .FontVariant => some .FontVariant
  | .FontWeight => some .FontWeight
  | .LetterSpacing => some .LetterSpacing
  | .LightingColor => some .LightingColor
  | .Marker => none
  | .MarkerEnd => some .MarkerEnd
  | .MarkerMid => some .MarkerMid
  | .MarkerStart => some .MarkerStart
  | .Mask => some .Mask
  | .Opacity => some .Opacity
  | .Overflow => some .Overflow
  | .ShapeRendering => some .ShapeRendering
  | .StopColor => some .StopColor
  | .StopOpacity => some .StopOpacity
  | .Stroke => some .Stroke
  | .StrokeDasharray => some .StrokeDasharray
  | .StrokeDashoffset => some .StrokeDashoffset
  | .StrokeLinecap => some .StrokeLinecap
  | .StrokeLinejoin => some .StrokeLinejoin
  | .StrokeOpacity => some .StrokeOpacity
  | .StrokeMiterlimit => some .StrokeMiterlimit
  | .StrokeWidth => some .StrokeWidth
  | .TextAnchor => some .TextAnchor
  | .TextDecoration => some .TextDecoration
  | .TextRendering => some .TextRendering
  | .UnicodeBidi => some .UnicodeBidi
  | .Visibility => some .Visibility
  | .WritingMode => some .WritingMode
  | .XmlLang => none
  | .XmlSpace => none
  | .UnsetProperty => none

/-- Abstraction of a `QualName` as matched by `parse_property`: either one
of the recognized CSS property names (identified by its discriminant; the
discriminants with `mkLonghand = none` stand for no recognized name and fall
to the catch-all arm) or any other name. -/
inductive AttrName where
  | css (id : PropertyId)
  | other
  deriving DecidableEq, Repr

/-- Mirror of `parse_property` (lines 317-469): dispatch on the property
name; the `marker` arm (lines 386-393) is guarded by `accept_shorthands` and
otherwise reports `UnknownProperty`; unrecognized names report
`UnknownProperty` (lines 464-467). -/
def parse_property {V : Type} (prop_name : AttrName) (vo : ValueOutcome V)
    (accept_shorthands : Bool) : Except ParseErrKind (ParsedProperty V) :=
  match prop_name with
  | .css id =>
      if id = PropertyId.Marker then
        if accept_shorthands then
          (parse_input vo).map (fun sv => ParsedProperty.Marker sv)
        else
          .error .unknownProperty
      else
        match mkLonghand id with
        | some mk => (parse_input vo).map mk
        | none => .error .unknownProperty
  | .other => .error .unknownProperty

/-- Mirror of `SpecifiedValues::parse_one_presentation_attribute`
(lines 627-704): parse with shorthands disabled; a successful parse is stored
via `set_parsed_property` (panics modelled by the outer `Option`); every
error arm only logs a diagnostic and falls through, so the function always
returns `Ok(())` — here the unchanged store wrapped in `Except.ok`. -/
def SpecifiedValues.parse_one_presentation_attribute {V E : Type}
    (s : SpecifiedValues V) (attr : AttrName) (vo : ValueOutcome V) :
    Option (Except E (SpecifiedValues V)) :=
  match parse_property attr vo false with
  | .ok prop => (s.set_parsed_property prop).map Except.ok
  | .error .unknownProperty => some (.ok s)
  | .error .unexpectedToken => some (.ok s)
  | .error .endOfInput => some (.ok s)
  | .error .otherBasic => some (.ok s)
  | .error .otherCustom => some (.ok s)

/-- One attribute of an element's property bag as consumed by
`parse_presentation_attributes` (lines 706-735): the two reserved
non-presentation attributes `xml:lang` / `xml:space` carry the outcome of
their direct value parse (`attr.parse(value)`, whose implementation is
external to the inspected sources and whose error type is abstracted to
`E`), and every other attribute carries its name and raw value. -/
inductive PAttr (V E : Type) where
  | xmlLang (outcome : Except E V)
  | xmlSpace (outcome : Except E V)
  | other (name : AttrName) (vo : ValueOutcome V)

/-- Mirror of `SpecifiedValues::parse_presentation_attributes`
(lines 706-735): iterate the bag; `xml:lang` / `xml:space` are parsed
directly and stored as `Specified` values, with a parse failure propagated
to the caller by the `?` operator; every other attribute goes through
`parse_one_presentation_attribute`. -/
def SpecifiedValues.parse_presentation_attributes {V E : Type}
    (s : SpecifiedValues V) :
    List (PAttr V E) → Option (Except E (SpecifiedValues V))
  | [] => some (.ok s)
  | attr :: rest =>
      match attr with
      | .xmlLang (.ok v) =>
          match s.set_parsed_property (.XmlLang (.Specified v)) with
          | some s' => s'.parse_presentation_attributes rest
          | none => none
      | .xmlLang (.error e) => some (.error e)
      | .xmlSpace (.ok v) =>
          match s.set_parsed_property (.XmlSpace (.Specified v)) with
          | some s' => s'.parse_presentation_attributes rest
          | none => none
      | .xmlSpace (.error e) => some (.error e)
      | .other name vo =>
          match s.parse_one_presentation_attribute name vo with
          | some (.ok s') => s'.parse_presentation_attributes rest
          | some (.error e) => some (.error e)
          | none => none

/-- The store-consistency invariant of `SpecifiedValues` (spec §3): every
non-sentinel lookup entry is a valid slot index whose slot carries that same
discriminant; every slot is pointed to by its discriminant's lookup entry
(hence each discriminant occupies at most one slot, and unset discriminants
are exactly the sentinel entries); and no slot carries the `Marker`
shorthand. -/
structure StoreWF {V : Type} (s : SpecifiedValues V) : Prop where
  valid : ∀ id : PropertyId, s.indices id ≠ PropertyId.UnsetProperty.toNat →
    ∃ p, s.props[s.indices id]? = some p ∧ p.get_property_id = id
  complete : ∀ i : Nat, ∀ p : ParsedProperty V, s.props[i]? = some p →
    s.indices p.get_property_id = i
  no_marker : ∀ i : Nat, ∀ p : ParsedProperty V, s.props[i]? = some p →
    p.get_property_id ≠ PropertyId.Marker

/-- Stores reachable from the default store by the source's set operations:
the storage-level `set_property` and the shorthand-expanding entry points
(`set_parsed_property`, `set_parsed_property_user_agent` and
`set_property_from_declaration` are thin wrappers of the latter). -/
inductive ReachableStore {V : Type} : SpecifiedValues V → Prop where
  | base : ReachableStore (SpecifiedValues.default V)
  | step {s : SpecifiedValues V} {p : ParsedProperty V} {r : Bool}
      {s' : SpecifiedValues V} : ReachableStore s →
      s.set_property p r = some s' → ReachableStore s'
  | stepExpand {s : SpecifiedValues V} {p : ParsedProperty V} {r : Bool}
      {s' : SpecifiedValues V} : ReachableStore s →
      s.set_property_expanding_shorthands p r = some s' → ReachableStore s'

/-- A concrete catalogue instance (payload type `Nat`, identity
finalization, non-inheriting kinds) used to exercise the parametric
development on closed inputs. -/
def sampleCatalogue : Catalogue Nat :=
  fun _ => { inherits_automatically := false, defaultVal := 0,
             compute := fun v _ => v }

/-- A concrete catalogue instance whose kinds all inherit automatically. -/
def sampleCatalogueInherit : Catalogue Nat :=
  fun _ => { inherits_automatically := true, defaultVal := 0,
             compute := fun v _ => v }

/-- The store reached from the default store by one `set_property` of a
specified `fill` value, written out literally. -/
def fillStore : SpecifiedValues Nat :=
  { indices := fun j => if j = PropertyId.Fill then 0 else 48
    props := [ParsedProperty.Fill (SpecifiedValue.Specified 3)] }

/-- The store holding one explicit-`inherit` opacity slot, written out
literally. -/
def inhStore : SpecifiedValues Nat :=
  { indices := fun j => if j = PropertyId.Opacity then 0 else 48
    props := [ParsedProperty.Opacity SpecifiedValue.Inherit] }

lemma ParsedProperty.get_property_id_ne_unset {V : Type} (p : ParsedProperty V) :
    p.get_property_id ≠ PropertyId.UnsetProperty := by
  cases p <;> exact fun h => nomatch h

lemma updateCV_self {V : Type} (cv : ComputedValues V) (id : PropertyId) (v : V) :
    updateCV cv id v id = v := by
  simp [updateCV]

lemma updateCV_ne {V : Type} (cv : ComputedValues V) (id j : PropertyId) (v : V)
    (h : j ≠ id) : updateCV cv id v j = cv j := by
  simp [updateCV, h]

lemma StoreWF.index_lt {V : Type} {s : SpecifiedValues V} (hWF : StoreWF s)
    {id : PropertyId} {i : Nat} (h : s.property_index id = some i) :
    i < s.props.length := by
  unfold SpecifiedValues.property_index at h
  by_cases hv : s.indices id = PropertyId.UnsetProperty.toNat
  · simp [hv] at h
  · simp [hv] at h
    obtain ⟨p, hp, _⟩ := hWF.valid id hv
    rw [h] at hp
    exact (List.getElem?_eq_some.1 hp).1

lemma StoreWF.lookup_of_index {V : Type} {s : SpecifiedValues V} (hWF : StoreWF s)
    {id : PropertyId} {i : Nat} (h : s.property_index id = some i) :
    ∃ p, s.props[i]? = some p ∧ p.get_property_id = id := by
  unfold SpecifiedValues.property_index at h
  by_cases hv : s.indices id = PropertyId.UnsetProperty.toNat
  · simp [hv] at h
  · simp [hv] at h
    subst h
    exact hWF.valid id hv

lemma StoreWF.length_le {V : Type} {s : SpecifiedValues V} (hWF : StoreWF s) :
    s.props.length ≤ 47 := by
  classical
  have hcard : Fintype.card
      {id : PropertyId // id ≠ PropertyId.Marker ∧ id ≠ PropertyId.UnsetProperty} = 47 := by
    decide
  have hget : ∀ k : Fin s.props.length, s.props[k.1]? = some (s.props.get k) := by
    intro k
    rw [List.get_eq_getElem]
    exact List.getElem?_eq_getElem k.2
  have hlen : Fintype.card (Fin s.props.length) ≤ 47 := by
    rw [← hcard]
    apply Fintype.card_le_of_injective
      (fun i => ⟨(s.props.get i).get_property_id,
        hWF.no_marker i.1 _ (hget i),
        ParsedProperty.get_property_id_ne_unset _⟩)
    intro i j hij
    have hij' : (s.props.get i).get_property_id = (s.props.get j).get_property_id :=
      congrArg Subtype.val hij
    have hi := hWF.complete i.1 _ (hget i)
    have hj := hWF.complete j.1 _ (hget j)
    apply Fin.ext
    rw [← hi, ← hj, hij']
  simpa using hlen

lemma wf_default (V : Type) : StoreWF (SpecifiedValues.default V) := by
  constructor
  · intro id h
    simp [SpecifiedValues.default] at h
  · intro i p hp
    simp [SpecifiedValues.default] at hp
  · intro i p hp
    simp [SpecifiedValues.default] at hp

lemma set_property_present_keep {V : Type} {s : SpecifiedValues V}
    {prop : ParsedProperty V} {i : Nat}
    (hm : prop.get_property_id ≠ PropertyId.Marker)
    (h : s.property_index prop.get_property_id = some i) :
    s.set_property prop false = some s := by
  simp [SpecifiedValues.set_property, hm, h]

lemma set_property_present_replace {V : Type} {s : SpecifiedValues V}
    {prop : ParsedProperty V} {i : Nat}
    (hm : prop.get_property_id ≠ PropertyId.Marker)
    (h : s.property_index prop.get_property_id = some i)
    (hi : i < s.props.length) :
    s.set_property prop true = some { s with props := s.props.set i prop } := by
  simp [SpecifiedValues.set_property, hm, h, hi]

lemma set_property_absent {V : Type} {s : SpecifiedValues V}
    {prop : ParsedProperty V} {r : Bool}
    (hm : prop.get_property_id ≠ PropertyId.Marker)
    (h : s.property_index prop.get_property_id = none) :
    s.set_property prop r =
      some { indices := fun j => if j = prop.get_property_id
                 then s.props.length % 256 else s.indices j
             props := s.props ++ [prop] } := by
  simp [SpecifiedValues.set_property, hm, h]

lemma set_property_marker {V : Type} (s : SpecifiedValues V)
    {prop : ParsedProperty V} (hm : prop.get_property_id = PropertyId.Marker)
    (r : Bool) : s.set_property prop r = none := by
  simp [SpecifiedValues.set_property, hm]

lemma index_lt_of_getElem {V : Type} {l : List (ParsedProperty V)} {i : Nat}
    {p : ParsedProperty V} (h : l[i]? = some p) : i < l.length :=
  (List.getElem?_eq_some.1 h).1

lemma property_index_eq_none {V : Type} {s : SpecifiedValues V} {id : PropertyId} :
    s.property_index id = none ↔ s.indices id = PropertyId.UnsetProperty.toNat := by
  unfold SpecifiedValues.property_index
  by_cases h : s.indices id = PropertyId.UnsetProperty.toNat <;> simp [h]

lemma property_index_eq_some {V : Type} {s : SpecifiedValues V} {id : PropertyId}
    {i : Nat} (h : s.property_index id = some i) :
    s.indices id = i ∧ i ≠ PropertyId.UnsetProperty.toNat := by
  unfold SpecifiedValues.property_index at h
  by_cases hv : s.indices id = PropertyId.UnsetProperty.toNat
  · simp [hv] at h
  · simp [hv] at h
    exact ⟨h, h ▸ hv⟩

lemma wf_set_property {V : Type} {s s' : SpecifiedValues V}
    {prop : ParsedProperty V} {r : Bool} (hWF : StoreWF s)
    (h : s.set_property prop r = some s') : StoreWF s' := by
  by_cases hm : prop.get_property_id = PropertyId.Marker
  · rw [set_property_marker s hm] at h
    exact absurd h (by simp)
  · cases hidx : s.property_index prop.get_property_id with
    | some i =>
        have hi : i < s.props.length := hWF.index_lt hidx
        cases r with
        | false =>
            rw [set_property_present_keep hm hidx] at h
            exact (Option.some.inj h) ▸ hWF
        | true =>
            rw [set_property_present_replace hm hidx hi] at h
            obtain rfl := Option.some.inj h
            have hslot : s.indices prop.get_property_id = i :=
              (property_index_eq_some hidx).1
            constructor
            · intro id hne
              obtain ⟨p, hp, hpid⟩ := hWF.valid id hne
              by_cases hii : s.indices id = i
              · refine ⟨prop, ?_, ?_⟩
                · simp only [hii]
                  exact List.getElem?_set_self hi
                · obtain ⟨q, hq, hqid⟩ := hWF.lookup_of_index hidx
                  rw [hii] at hp
                  rw [hp] at hq
                  obtain rfl := Option.some.inj hq
                  rw [← hpid, hqid]
              · exact ⟨p, by simpa [List.getElem?_set_ne (fun hh => hii hh.symm)] using hp, hpid⟩
            · intro j q hq
              by_cases hji : j = i
              · subst hji
                rw [List.getElem?_set_self hi] at hq
                obtain rfl := Option.some.inj hq
                exact hslot
              · rw [List.getElem?_set_ne (fun hh => hji hh.symm)] at hq
                exact hWF.complete j q hq
            · intro j q hq
              by_cases hji : j = i
              · subst hji
                rw [List.getElem?_set_self hi] at hq
                obtain rfl := Option.some.inj hq
                exact hm
              · rw [List.getElem?_set_ne (fun hh => hji hh.symm)] at hq
                exact hWF.no_marker j q hq
    | none =>
        rw [set_property_absent hm hidx] at h
        obtain rfl := Option.some.inj h
        have hsent : s.indices prop.get_property_id = PropertyId.UnsetProperty.toNat :=
          property_index_eq_none.1 hidx
        have hlen : s.props.length ≤ 47 := hWF.length_le
        have hmod : s.props.length % 256 = s.props.length :=
          Nat.mod_eq_of_lt (lt_of_le_of_lt hlen (by norm_num))
        constructor
        · intro id hne
          simp only at hne ⊢
          by_cases hid : id = prop.get_property_id
          · subst hid
            refine ⟨prop, ?_, rfl⟩
            simp only [if_pos rfl, hmod]
            exact List.getElem?_concat_length s.props prop
          · rw [if_neg hid] at hne ⊢
            obtain ⟨p, hp, hpid⟩ := hWF.valid id hne
            refine ⟨p, ?_, hpid⟩
            rw [List.getElem?_append_left (index_lt_of_getElem hp)]
            exact hp
        · intro j q hq
          simp only at hq ⊢
          by_cases hj : j < s.props.length
          · rw [List.getElem?_append_left hj] at hq
            have hcomp := hWF.complete j q hq
            have hqne : q.get_property_id ≠ prop.get_property_id := by
              intro hh
              rw [hh, hsent] at hcomp
              simp only [PropertyId.toNat] at hcomp
              omega
            rw [if_neg hqne, hcomp]
          · have hjlen : j < s.props.length + 1 := by
              have := index_lt_of_getElem hq
              simpa using this
            have hj' : j = s.props.length := by omega
            subst hj'
            rw [List.getElem?_concat_length] at hq
            obtain rfl := Option.some.inj hq
            rw [if_pos rfl, hmod]
        · intro j q hq
          by_cases hj : j < s.props.length
          · rw [List.getElem?_append_left hj] at hq
            exact hWF.no_marker j q hq
          · have hjlen : j < s.props.length + 1 := by
              have := index_lt_of_getElem hq
              simpa using this
            have hj' : j = s.props.length := by omega
            subst hj'
            rw [List.getElem?_concat_length] at hq
            obtain rfl := Option.some.inj hq
            exact hm

lemma wf_set_property_expanding_shorthands {V : Type} {s s' : SpecifiedValues V}
    {prop : ParsedProperty V} {r : Bool} (hWF : StoreWF s)
    (h : s.set_property_expanding_shorthands prop r = some s') : StoreWF s' := by
  unfold SpecifiedValues.set_property_expanding_shorthands at h
  match prop with
  | .Marker (.Specified v) =>
      simp only [Option.bind_eq_bind, Option.bind_eq_some] at h
      obtain ⟨s1, h1, s2, h2, h3⟩ := h
      exact wf_set_property (wf_set_property (wf_set_property hWF h1) h2) h3
  | .Marker .Unspecified => exact wf_set_property hWF h
  | .Marker .Inherit => exact wf_set_property hWF h
  | .BaselineShift sv => exact wf_set_property hWF h
  | .ClipPath sv => exact wf_set_property hWF h
  | .ClipRule sv => exact wf_set_property hWF h
  | .Color sv => exact wf_set_property hWF h
  | .ColorInterpolationFilters sv => exact wf_set_property hWF h
  | .Direction sv => exact wf_set_property hWF h
  | .Display sv => exact wf_set_property hWF h
  | .EnableBackground sv => exact wf_set_property hWF h
  | .Fill sv => exact wf_set_property hWF h
  | .FillOpacity sv => exact wf_set_property hWF h
  | .FillRule sv => exact wf_set_property hWF h
  | .Filter sv => exact wf_set_property hWF h
  | .FloodColor sv => exact wf_set_property hWF h
  | .FloodOpacity sv => exact wf_set_property hWF h
  | .FontFamily sv => exact wf_set_property hWF h
  | .FontSize sv => exact wf_set_property hWF h
  | .FontStretch sv => exact wf_set_property hWF h
  | .FontStyle sv => exact wf_set_property hWF h
  | .FontVariant sv => exact wf_set_property hWF h
  | .FontWeight sv => exact wf_set_property hWF h
  | .LetterSpacing sv => exact wf_set_property hWF h
  | .LightingColor sv => exact wf_set_property hWF h
  | .MarkerEnd sv => exact wf_set_property hWF h
  | .MarkerMid sv => exact wf_set_property hWF h
  | .MarkerStart sv => exact wf_set_property hWF h
  | .Mask sv => exact wf_set_property hWF h
  | .Opacity sv => exact wf_set_property hWF h
  | .Overflow sv => exact wf_set_property hWF h
  | .ShapeRendering sv => exact wf_set_property hWF h
  | .StopColor sv => exact wf_set_property hWF h
  | .StopOpacity sv => exact wf_set_property hWF h
  | .Stroke sv => exact wf_set_property hWF h
  | .StrokeDasharray sv => exact wf_set_property hWF h
  | .StrokeDashoffset sv => exact wf_set_property hWF h
  | .StrokeLinecap sv => exact wf_set_property hWF h
  | .StrokeLinejoin sv => exact wf_set_property hWF h
  | .StrokeOpacity sv => exact wf_set_property hWF h
  | .StrokeMiterlimit sv => exact wf_set_property hWF h
  | .StrokeWidth sv => exact wf_set_property hWF h
  | .TextAnchor sv => exact wf_set_property hWF h
  | .TextDecoration sv => exact wf_set_property hWF h
  | .TextRendering sv => exact wf_set_property hWF h
  | .UnicodeBidi sv => exact wf_set_property hWF h
  | .Visibility sv => exact wf_set_property hWF h
  | .WritingMode sv => exact wf_set_property hWF h
  | .XmlLang sv => exact wf_set_property hWF h
  | .XmlSpace sv => exact wf_set_property hWF h

lemma wf_reachable {V : Type} {s : SpecifiedValues V} (h : ReachableStore s) :
    StoreWF s := by
  induction h with
  | base => exact wf_default V
  | step _ hset ih => exact wf_set_property ih hset
  | stepExpand _ hset ih => exact wf_set_property_expanding_shorthands ih hset

lemma computeProp_eq {V : Type} {s : SpecifiedValues V} (hWF : StoreWF s)
    (C : Catalogue V) (id : PropertyId) (cv : ComputedValues V) :
    computeProp C s id cv =
      some (updateCV cv id ((s.specAt id).compute (C id) (cv id) cv)) := by
  cases hidx : s.property_index id with
  | none =>
      simp [computeProp, hidx, SpecifiedValues.specAt, SpecifiedValues.lookup]
  | some i =>
      obtain ⟨p, hp, hpid⟩ := hWF.lookup_of_index hidx
      simp [computeProp, hidx, hp, hpid, SpecifiedValues.specAt,
        SpecifiedValues.lookup]

lemma fold_total {V : Type} {s : SpecifiedValues V} (hWF : StoreWF s)
    (C : Catalogue V) (l : List PropertyId) (cv : ComputedValues V) :
    ∃ out, l.foldlM (fun acc id => computeProp C s id acc) cv = some out := by
  induction l generalizing cv with
  | nil => exact ⟨cv, rfl⟩
  | cons a l ih =>
      obtain ⟨out, hout⟩ := ih (updateCV cv a ((s.specAt a).compute (C a) (cv a) cv))
      refine ⟨out, ?_⟩
      rw [List.foldlM_cons, computeProp_eq hWF]
      simpa only [Option.bind_eq_bind, Option.some_bind] using hout

lemma fold_untouched {V : Type} {s : SpecifiedValues V} (hWF : StoreWF s)
    (C : Catalogue V) {l : List PropertyId} {cv out : ComputedValues V}
    {id : PropertyId} (hid : id ∉ l)
    (h : l.foldlM (fun acc j => computeProp C s j acc) cv = some out) :
    out id = cv id := by
  induction l generalizing cv with
  | nil =>
      simp only [List.foldlM_nil] at h
      obtain rfl : cv = out := by simpa using h
      rfl
  | cons a l ih =>
      rw [List.foldlM_cons, computeProp_eq hWF] at h
      simp only [Option.bind_eq_bind, Option.some_bind] at h
      have hne : id ≠ a := fun hh => hid (hh ▸ List.mem_cons_self a l)
      have hrest : id ∉ l := fun hh => hid (List.mem_cons_of_mem a hh)
      rw [ih hrest h]
      exact updateCV_ne cv a id _ hne

lemma fold_append_cons {V : Type} {s : SpecifiedValues V} (hWF : StoreWF s)
    (C : Catalogue V) {l₁ l₂ : List PropertyId} {id : PropertyId}
    {cv out : ComputedValues V}
    (h : (l₁ ++ id :: l₂).foldlM (fun acc j => computeProp C s j acc) cv = some out) :
    ∃ mid, l₁.foldlM (fun acc j => computeProp C s j acc) cv = some mid ∧
      l₂.foldlM (fun acc j => computeProp C s j acc)
        (updateCV mid id ((s.specAt id).compute (C id) (mid id) mid)) = some out := by
  rw [List.foldlM_append] at h
  obtain ⟨mid, hmid⟩ := fold_total hWF C l₁ cv
  refine ⟨mid, hmid, ?_⟩
  rw [hmid] at h
  simp only [Option.bind_eq_bind, Option.some_bind, List.foldlM_cons] at h
  rw [computeProp_eq hWF] at h
  simpa only [Option.bind_eq_bind, Option.some_bind] using h

lemma to_computed_values_total {V : Type} {s : SpecifiedValues V}
    (hWF : StoreWF s) (C : Catalogue V) (cv : ComputedValues V) :
    ∃ out, s.to_computed_values C cv = some out :=
  fold_total hWF C computeOrder cv

lemma computeOrder_nodup : computeOrder.Nodup := by decide

lemma to_computed_field {V : Type} {s : SpecifiedValues V} (hWF : StoreWF s)
    (C : Catalogue V) {id : PropertyId} {cv out : ComputedValues V}
    (hmem : id ∈ computeOrder) (h : s.to_computed_values C cv = some out) :
    ∃ mid : ComputedValues V, mid id = cv id ∧
      out id = (s.specAt id).compute (C id) (mid id) mid ∧
      (id ≠ PropertyId.FontSize → mid PropertyId.FontSize = out PropertyId.FontSize) := by
  obtain ⟨l₁, l₂, hsplit⟩ := List.append_of_mem hmem
  have hnd := computeOrder_nodup
  rw [hsplit] at hnd
  obtain ⟨hnd₁, hnd₂, hdisj⟩ := List.nodup_append.1 hnd
  have hid₂ : id ∉ l₂ := (List.nodup_cons.1 hnd₂).1
  have hid₁ : id ∉ l₁ := fun hh => hdisj hh (List.mem_cons_self id l₂)
  unfold SpecifiedValues.to_computed_values at h
  rw [hsplit] at h
  obtain ⟨mid, hmid, hrest⟩ := fold_append_cons hWF C h
  refine ⟨mid, fold_untouched hWF C hid₁ hmid, ?_, ?_⟩
  · have := fold_untouched hWF C hid₂ hrest
    rw [this, updateCV_self]
  · intro hne
    have hfs₁ : PropertyId.FontSize ∈ l₁ := by
      have hhead : computeOrder = PropertyId.FontSize :: computeOrder.tail := rfl
      cases l₁ with
      | nil =>
          exfalso
          apply hne
          have h2 := hsplit.symm.trans hhead
          simp only [List.nil_append, List.cons.injEq] at h2
          exact h2.1
      | cons a l₁' =>
          have h2 := hsplit.symm.trans hhead
          simp only [List.cons_append, List.cons.injEq] at h2
          rw [← h2.1]
          exact List.mem_cons_self a l₁'
    have hfs₂ : PropertyId.FontSize ∉ id :: l₂ := fun hh => hdisj hfs₁ hh
    have hfsid : PropertyId.FontSize ≠ id := fun hh => hfs₂ (hh ▸ List.mem_cons_self id l₂)
    have hfsl₂ : PropertyId.FontSize ∉ l₂ := fun hh => hfs₂ (List.mem_cons_of_mem id hh)
    have := fold_untouched hWF C hfsl₂ hrest
    rw [this, updateCV_ne _ _ _ _ hfsid]

lemma expand_eq_set_of_ne_marker {V : Type} (s : SpecifiedValues V)
    {prop : ParsedProperty V} (hm : prop.get_property_id ≠ PropertyId.Marker)
    (r : Bool) :
    s.set_property_expanding_shorthands prop r = s.set_property prop r := by
  cases prop with
  | Marker sv => exact absurd rfl hm
  | _ => rfl

lemma property_index_set {V : Type} {s s' : SpecifiedValues V}
    {prop : ParsedProperty V} {i : Nat}
    (hm : prop.get_property_id ≠ PropertyId.Marker)
    (hidx : s.property_index prop.get_property_id = some i)
    (hi : i < s.props.length)
    (h : s.set_property prop true = some s') :
    s'.indices = s.indices := by
  rw [set_property_present_replace hm hidx hi] at h
  obtain rfl := Option.some.inj h
  rfl

lemma lookup_set_true {V : Type} {s s' : SpecifiedValues V}
    {prop : ParsedProperty V} (hWF : StoreWF s)
    (hm : prop.get_property_id ≠ PropertyId.Marker)
    (h : s.set_property prop true = some s') :
    s'.lookup prop.get_property_id = some prop := by
  cases hidx : s.property_index prop.get_property_id with
  | some i =>
      have hi : i < s.props.length := hWF.index_lt hidx
      rw [set_property_present_replace hm hidx hi] at h
      obtain rfl := Option.some.inj h
      have hidx' : SpecifiedValues.property_index
          { s with props := s.props.set i prop } prop.get_property_id = some i := hidx
      simp only [SpecifiedValues.lookup, hidx', Option.some_bind]
      exact List.getElem?_set_self hi
  | none =>
      rw [set_property_absent hm hidx] at h
      obtain rfl := Option.some.inj h
      have hlen : s.props.length ≤ 47 := hWF.length_le
      have hmod : s.props.length % 256 = s.props.length :=
        Nat.mod_eq_of_lt (lt_of_le_of_lt hlen (by norm_num))
      have hne48 : s.props.length ≠ PropertyId.UnsetProperty.toNat := by
        simp only [PropertyId.toNat]
        omega
      simp only [SpecifiedValues.lookup, SpecifiedValues.property_index, if_true,
        eq_self_iff_true, hmod, if_neg hne48, Option.some_bind]
      exact List.getElem?_concat_length s.props prop

lemma lookup_preserved {V : Type} {s s' : SpecifiedValues V}
    {prop : ParsedProperty V} {r : Bool} {id : PropertyId} (hWF : StoreWF s)
    (hne : id ≠ prop.get_property_id)
    (h : s.set_property prop r = some s') :
    s'.lookup id = s.lookup id := by
  by_cases hm : prop.get_property_id = PropertyId.Marker
  · rw [set_property_marker s hm] at h
    exact absurd h (by simp)
  cases hidx : s.property_index prop.get_property_id with
  | some i =>
      have hi : i < s.props.length := hWF.index_lt hidx
      cases r with
      | false =>
          rw [set_property_present_keep hm hidx] at h
          obtain rfl := Option.some.inj h
          rfl
      | true =>
          rw [set_property_present_replace hm hidx hi] at h
          obtain rfl := Option.some.inj h
          simp only [SpecifiedValues.lookup, SpecifiedValues.property_index]
          by_cases hsent : s.indices id = PropertyId.UnsetProperty.toNat
          · simp [hsent]
          · simp only [if_neg hsent, Option.some_bind]
            obtain ⟨p, hp, hpid⟩ := hWF.valid id hsent
            have hji : s.indices id ≠ i := by
              intro hh
              obtain ⟨q, hq, hqid⟩ := hWF.lookup_of_index hidx
              rw [hh] at hp
              rw [hp] at hq
              obtain rfl := Option.some.inj hq
              exact hne (hpid ▸ hqid ▸ rfl)
            exact List.getElem?_set_ne (fun hh => hji hh.symm)
  | none =>
      rw [set_property_absent hm hidx] at h
      obtain rfl := Option.some.inj h
      simp only [SpecifiedValues.lookup, SpecifiedValues.property_index, if_neg hne]
      by_cases hsent : s.indices id = PropertyId.UnsetProperty.toNat
      · simp [hsent]
      · simp only [if_neg hsent, Option.some_bind]
        obtain ⟨p, hp, hpid⟩ := hWF.valid id hsent
        rw [List.getElem?_append_left (index_lt_of_getElem hp)]

/-- C9: every sequence of set operations starting from the default
`SpecifiedValues` preserves the store-consistency invariant: each property
identity occupies at most one slot, every non-sentinel `indices` entry is a
valid index into `props` whose stored property has that identity, and unset
identities are exactly the `UnsetProperty` sentinel entries. -/
theorem c9_reachable_store_invariant {V : Type} (s : SpecifiedValues V)
    (h : ReachableStore s) : StoreWF s :=
  wf_reachable h

theorem c9_witness : StoreWF fillStore :=
  c9_reachable_store_invariant fillStore
    (@ReachableStore.step Nat (SpecifiedValues.default Nat)
      (ParsedProperty.Fill (SpecifiedValue.Specified 3)) true fillStore
      ReachableStore.base rfl)

/-- C10: on every store reachable by set operations from the default store,
the slot sequence never exceeds the 48 property identities, so the
`pos as u8` narrowing in `set_property` (modelled as `% 256`) is lossless
and never produces the `UnsetProperty` sentinel, and every slot index
returned by `property_index` is in bounds of `props`. -/
theorem c10_slot_position_bounds {V : Type} (s : SpecifiedValues V)
    (h : ReachableStore s) :
    s.props.length ≤ 48 ∧
    (∀ id : PropertyId, ∀ i : Nat, s.property_index id = some i →
      i < s.props.length) ∧
    (∀ prop : ParsedProperty V, prop.get_property_id ≠ PropertyId.Marker →
      s.property_index prop.get_property_id = none →
      s.props.length % 256 = s.props.length ∧
      s.props.length ≠ PropertyId.UnsetProperty.toNat ∧
      s.set_property prop true = some
        { indices := fun j => if j = prop.get_property_id then s.props.length
              else s.indices j
          props := s.props ++ [prop] }) := by
  have hWF := wf_reachable h
  have hlen : s.props.length ≤ 47 := hWF.length_le
  refine ⟨le_trans hlen (by norm_num), ?_, ?_⟩
  · intro id i hidx
    exact hWF.index_lt hidx
  · intro prop hm hidx
    have hmod : s.props.length % 256 = s.props.length :=
      Nat.mod_eq_of_lt (lt_of_le_of_lt hlen (by norm_num))
    refine ⟨hmod, ?_, ?_⟩
    · simp only [PropertyId.toNat]
      omega
    · rw [set_property_absent hm hidx, hmod]

theorem c10_witness : fillStore.props.length ≤ 48 :=
  (c10_slot_position_bounds fillStore
    (@ReachableStore.step Nat (SpecifiedValues.default Nat)
      (ParsedProperty.Fill (SpecifiedValue.Specified 3)) true fillStore
      ReachableStore.base rfl)).1

/-- C3 is contradicted by the code: the expansion step of
`set_property_expanding_shorthands` intercepts only
`Marker(SpecifiedValue::Specified(_))`, so the `Marker` shorthand in its
`Unspecified` or `Inherit` state falls through to `set_property` and
executes the `unreachable!` panic (modelled as `none`) — through both
public entry points. -/
theorem c3_marker_inherit_reaches_panic :
    ((SpecifiedValues.default Nat).set_parsed_property
        (ParsedProperty.Marker SpecifiedValue.Inherit) = none) ∧
    ((SpecifiedValues.default Nat).set_parsed_property
        (ParsedProperty.Marker SpecifiedValue.Unspecified) = none) ∧
    ((SpecifiedValues.default Nat).set_parsed_property_user_agent
        (ParsedProperty.Marker SpecifiedValue.Inherit) = none) :=
  ⟨rfl, rfl, rfl⟩

/-- C2: for a non-shorthand property, `set_property` with `replace = true`
overwrites an already-present slot in place (`indices` untouched, so the
position is preserved); with `replace = false` and the identity present it
leaves the store unchanged; with the identity absent it appends a slot and
records its index.  Consequently, two sets of the same identity with
`replace = true` leave the second value in the slot — and in the final
computed result — while a second set with `replace = false` preserves the
first value. -/
theorem c2_set_property_override_semantics {V : Type} (s : SpecifiedValues V)
    (hWF : StoreWF s) (prop : ParsedProperty V)
    (hm : prop.get_property_id ≠ PropertyId.Marker) :
    (∀ i : Nat, s.property_index prop.get_property_id = some i →
      s.set_property prop true = some { s with props := s.props.set i prop }) ∧
    (∀ i : Nat, s.property_index prop.get_property_id = some i →
      s.set_property prop false = some s) ∧
    (s.property_index prop.get_property_id = none → ∀ r : Bool,
      s.set_property prop r = some
        { indices := fun j => if j = prop.get_property_id then s.props.length
              else s.indices j
          props := s.props ++ [prop] } ∧
      (∀ s', s.set_property prop r = some s' →
        s'.property_index prop.get_property_id = some s.props.length)) ∧
    (∀ p2 s1 s2, p2.get_property_id = prop.get_property_id →
      s.set_property prop true = some s1 → s1.set_property p2 true = some s2 →
      s2.lookup prop.get_property_id = some p2 ∧
      (∀ (C : Catalogue V) (cv out : ComputedValues V),
        prop.get_property_id ∈ computeOrder →
        s2.to_computed_values C cv = some out →
        ∃ mid, out prop.get_property_id =
          p2.payload.compute (C prop.get_property_id)
            (mid prop.get_property_id) mid)) ∧
    (∀ p2 s1 s2, p2.get_property_id = prop.get_property_id →
      s.set_property prop true = some s1 → s1.set_property p2 false = some s2 →
      s2.lookup prop.get_property_id = some prop) := by
  have hlen : s.props.length ≤ 47 := hWF.length_le
  have hmod : s.props.length % 256 = s.props.length :=
    Nat.mod_eq_of_lt (lt_of_le_of_lt hlen (by norm_num))
  refine ⟨?_, ?_, ?_, ?_, ?_⟩
  · intro i hidx
    exact set_property_present_replace hm hidx (hWF.index_lt hidx)
  · intro i hidx
    exact set_property_present_keep hm hidx
  · intro hidx r
    constructor
    · rw [set_property_absent hm hidx, hmod]
    · intro s' hs'
      rw [set_property_absent hm hidx] at hs'
      obtain rfl := Option.some.inj hs'
      have hne48 : s.props.length ≠ PropertyId.UnsetProperty.toNat := by
        simp only [PropertyId.toNat]
        omega
      simp [SpecifiedValues.property_index, hmod, hne48]
  · intro p2 s1 s2 hid h1 h2
    have hWF1 : StoreWF s1 := wf_set_property hWF h1
    have hWF2 : StoreWF s2 := wf_set_property hWF1 h2
    have hm2 : p2.get_property_id ≠ PropertyId.Marker := hid ▸ hm
    have hlook : s2.lookup prop.get_property_id = some p2 := by
      rw [← hid]
      exact lookup_set_true hWF1 hm2 h2
    refine ⟨hlook, ?_⟩
    intro C cv out hmem hout
    obtain ⟨mid, _, hfield, _⟩ := to_computed_field hWF2 C hmem hout
    refine ⟨mid, ?_⟩
    rw [hfield]
    simp [SpecifiedValues.specAt, hlook]
  · intro p2 s1 s2 hid h1 h2
    have hWF1 : StoreWF s1 := wf_set_property hWF h1
    have hm2 : p2.get_property_id ≠ PropertyId.Marker := hid ▸ hm
    have hlook1 : s1.lookup prop.get_property_id = some prop :=
      lookup_set_true hWF hm h1
    have hidx1 : s1.property_index p2.get_property_id =
        some (s1.indices p2.get_property_id) := by
      rw [hid]
      have hne48 : s1.indices prop.get_property_id ≠ PropertyId.UnsetProperty.toNat := by
        intro hh
        have hnone : s1.property_index prop.get_property_id = none :=
          property_index_eq_none.2 hh
        unfold SpecifiedValues.lookup at hlook1
        rw [hnone] at hlook1
        exact absurd hlook1 (by simp)
      simp [SpecifiedValues.property_index, hne48]
    rw [set_property_present_keep hm2 hidx1] at h2
    obtain rfl := Option.some.inj h2
    exact hlook1

theorem c2_witness :
    (SpecifiedValues.default Nat).set_property
      (ParsedProperty.Fill (SpecifiedValue.Specified 3)) true = some fillStore :=
  ((c2_set_property_override_semantics (SpecifiedValues.default Nat)
      (wf_default Nat) (ParsedProperty.Fill (SpecifiedValue.Specified 3))
      (by decide)).2.2.1 rfl true).1

/-- C8: setting the `marker` shorthand with a specified value yields exactly
the sequential setting of `marker-start`, `marker-mid` and `marker-end` to
the same specified value with the same replace flag; re-setting the
shorthand later with `replace = true` leaves all three longhand slots
holding the new value. -/
theorem c8_marker_expansion_equals_longhand_sets {V : Type} :
    (∀ (s : SpecifiedValues V) (v : V) (r : Bool),
      s.set_property_expanding_shorthands
          (ParsedProperty.Marker (SpecifiedValue.Specified v)) r =
        (s.set_property_expanding_shorthands
            (ParsedProperty.MarkerStart (SpecifiedValue.Specified v)) r).bind
          (fun s1 => (s1.set_property_expanding_shorthands
              (ParsedProperty.MarkerMid (SpecifiedValue.Specified v)) r).bind
            (fun s2 => s2.set_property_expanding_shorthands
              (ParsedProperty.MarkerEnd (SpecifiedValue.Specified v)) r))) ∧
    (∀ (s s' : SpecifiedValues V) (v : V), StoreWF s →
      s.set_property_expanding_shorthands
          (ParsedProperty.Marker (SpecifiedValue.Specified v)) true = some s' →
      s'.lookup PropertyId.MarkerStart =
        some (ParsedProperty.MarkerStart (SpecifiedValue.Specified v)) ∧
      s'.lookup PropertyId.MarkerMid =
        some (ParsedProperty.MarkerMid (SpecifiedValue.Specified v)) ∧
      s'.lookup PropertyId.MarkerEnd =
        some (ParsedProperty.MarkerEnd (SpecifiedValue.Specified v))) := by
  constructor
  · intro s v r
    rfl
  · intro s s' v hWF h
    unfold SpecifiedValues.set_property_expanding_shorthands at h
    simp only [Option.bind_eq_bind, Option.bind_eq_some] at h
    obtain ⟨s1, h1, s2, h2, h3⟩ := h
    have hWF1 : StoreWF s1 := wf_set_property hWF h1
    have hWF2 : StoreWF s2 := wf_set_property hWF1 h2
    refine ⟨?_, ?_, ?_⟩
    · have hstart : s1.lookup PropertyId.MarkerStart =
          some (ParsedProperty.MarkerStart (SpecifiedValue.Specified v)) :=
        lookup_set_true hWF (by simp [ParsedProperty.get_property_id]) h1
      rw [← hstart]
      have e2 := lookup_preserved hWF1
        (show PropertyId.MarkerStart ≠
          (ParsedProperty.MarkerMid (SpecifiedValue.Specified v)).get_property_id
          by simp [ParsedProperty.get_property_id]) h2
      have e3 := lookup_preserved hWF2
        (show PropertyId.MarkerStart ≠
          (ParsedProperty.MarkerEnd (SpecifiedValue.Specified v)).get_property_id
          by simp [ParsedProperty.get_property_id]) h3
      rw [e3, e2]
    · have hmid : s2.lookup PropertyId.MarkerMid =
          some (ParsedProperty.MarkerMid (SpecifiedValue.Specified v)) :=
        lookup_set_true hWF1 (by simp [ParsedProperty.get_property_id]) h2
      rw [← hmid]
      exact lookup_preserved hWF2
        (show PropertyId.MarkerMid ≠
          (ParsedProperty.MarkerEnd (SpecifiedValue.Specified v)).get_property_id
          by simp [ParsedProperty.get_property_id]) h3
    · exact lookup_set_true hWF2 (by simp [ParsedProperty.get_property_id]) h3

theorem c8_witness :
    ((SpecifiedValues.default Nat).set_property_expanding_shorthands
        (ParsedProperty.Marker (SpecifiedValue.Specified 5)) true).bind
      (fun s' => s'.lookup PropertyId.MarkerMid) =
      some (ParsedProperty.MarkerMid (SpecifiedValue.Specified 5)) := by
  obtain ⟨s', hs'⟩ : ∃ x, (SpecifiedValues.default Nat).set_property_expanding_shorthands
      (ParsedProperty.Marker (SpecifiedValue.Specified 5)) true = some x := ⟨_, rfl⟩
  rw [hs']
  simpa using (c8_marker_expansion_equals_longhand_sets.2
    (SpecifiedValues.default Nat) s' 5 (wf_default Nat) hs').2.1

lemma insertName_self_mem {N : Type} [DecidableEq N] (n : N) (styles : List N) :
    n ∈ insertName n styles := by
  unfold insertName
  by_cases h : n ∈ styles <;> simp [h]

lemma lookup_set_absent {V : Type} {s s' : SpecifiedValues V}
    {prop : ParsedProperty V} {r : Bool} (hWF : StoreWF s)
    (hm : prop.get_property_id ≠ PropertyId.Marker)
    (hidx : s.property_index prop.get_property_id = none)
    (h : s.set_property prop r = some s') :
    s'.lookup prop.get_property_id = some prop := by
  rw [set_property_absent hm hidx] at h
  obtain rfl := Option.some.inj h
  have hlen : s.props.length ≤ 47 := hWF.length_le
  have hmod : s.props.length % 256 = s.props.length :=
    Nat.mod_eq_of_lt (lt_of_le_of_lt hlen (by norm_num))
  have hne48 : s.props.length ≠ PropertyId.UnsetProperty.toNat := by
    simp only [PropertyId.toNat]
    omega
  simp only [SpecifiedValues.lookup, SpecifiedValues.property_index, if_true,
    eq_self_iff_true, hmod, if_neg hne48, Option.some_bind]
  exact List.getElem?_concat_length s.props prop

lemma set_property_total {V : Type} {s : SpecifiedValues V}
    {prop : ParsedProperty V} (hWF : StoreWF s)
    (hm : prop.get_property_id ≠ PropertyId.Marker) (r : Bool) :
    ∃ s', s.set_property prop r = some s' := by
  cases hidx : s.property_index prop.get_property_id with
  | some i =>
      cases r with
      | true => exact ⟨_, set_property_present_replace hm hidx (hWF.index_lt hidx)⟩
      | false => exact ⟨s, set_property_present_keep hm hidx⟩
  | none => exact ⟨_, set_property_absent hm hidx⟩

lemma set_parsed_property_total {V : Type} {s : SpecifiedValues V}
    {prop : ParsedProperty V} (hWF : StoreWF s)
    (hm : prop.get_property_id ≠ PropertyId.Marker) :
    ∃ s', s.set_parsed_property prop = some s' ∧ StoreWF s' := by
  unfold SpecifiedValues.set_parsed_property
  rw [expand_eq_set_of_ne_marker s hm]
  obtain ⟨s', hs'⟩ := set_property_total hWF hm true
  exact ⟨s', hs', wf_set_property hWF hs'⟩

lemma mkLonghand_get_id {V : Type} {id : PropertyId}
    {mk : SpecifiedValue V → ParsedProperty V}
    (h : mkLonghand id = some mk) (sv : SpecifiedValue V) :
    (mk sv).get_property_id = id := by
  cases id <;> simp only [mkLonghand, Option.some.injEq] at h <;>
    first
      | exact Option.noConfusion h
      | (subst h; rfl)

lemma parse_property_no_shorthand {V : Type} {n : AttrName} {vo : ValueOutcome V}
    {prop : ParsedProperty V} (h : parse_property n vo false = .ok prop) :
    prop.get_property_id ≠ PropertyId.Marker := by
  cases n with
  | other => exact absurd h (by simp [parse_property])
  | css id =>
      by_cases hid : id = PropertyId.Marker
      · rw [parse_property, if_pos hid] at h
        simp at h
      · rw [parse_property, if_neg hid] at h
        cases hmk : (mkLonghand id : Option (SpecifiedValue V → ParsedProperty V)) with
        | none => rw [hmk] at h; simp at h
        | some mk =>
            rw [hmk] at h
            cases hin : parse_input vo with
            | error e => rw [hin] at h; simp [Except.map] at h
            | ok sv =>
                rw [hin] at h
                simp only [Except.map, Except.ok.injEq] at h
                subst h
                rw [mkLonghand_get_id hmk]
                exact hid

/-- C4: `set_property_from_declaration` drops a non-important declaration
whose property is already in the important-styles set, records an important
declaration's property into that set regardless of origin, and applies the
declaration with `replace = false` for user-agent origin and `replace = true`
otherwise; hence an `!important` user-agent declaration followed by a
non-important author declaration for the same property leaves the important
declaration's value in effect. -/
theorem c4_declaration_importer_rules {N V : Type} [DecidableEq N] :
    (∀ (s : SpecifiedValues V) (d : Declaration N V) (o : Origin)
      (styles : List N), d.important = false → d.prop_name ∈ styles →
      s.set_property_from_declaration d o styles = some (s, styles)) ∧
    (∀ (s : SpecifiedValues V) (d : Declaration N V) (o : Origin)
      (styles : List N) (s' : SpecifiedValues V) (styles' : List N),
      d.important = true →
      s.set_property_from_declaration d o styles = some (s', styles') →
      d.prop_name ∈ styles') ∧
    (∀ (s : SpecifiedValues V) (d : Declaration N V) (styles : List N),
      ¬(d.important = false ∧ d.prop_name ∈ styles) →
      s.set_property_from_declaration d Origin.UserAgent styles =
        (s.set_property_expanding_shorthands d.property false).map
          (fun s' => (s', if d.important then insertName d.prop_name styles
            else styles)) ∧
      s.set_property_from_declaration d Origin.Author styles =
        (s.set_property_expanding_shorthands d.property true).map
          (fun s' => (s', if d.important then insertName d.prop_name styles
            else styles))) ∧
    (∀ (s : SpecifiedValues V) (d1 d2 : Declaration N V) (styles : List N)
      (s1 : SpecifiedValues V) (st1 : List N), StoreWF s →
      d1.important = true → d2.important = false →
      d2.prop_name = d1.prop_name →
      d1.property.get_property_id ≠ PropertyId.Marker →
      s.property_index d1.property.get_property_id = none →
      s.set_property_from_declaration d1 Origin.UserAgent styles =
        some (s1, st1) →
      s1.set_property_from_declaration d2 Origin.Author st1 = some (s1, st1) ∧
      s1.lookup d1.property.get_property_id = some d1.property) := by
  refine ⟨?_, ?_, ?_, ?_⟩
  · intro s d o styles himp hmem
    simp [SpecifiedValues.set_property_from_declaration, himp, hmem]
  · intro s d o styles s' styles' himp h
    unfold SpecifiedValues.set_property_from_declaration at h
    rw [if_neg (by simp [himp]), if_pos himp] at h
    cases o with
    | UserAgent =>
        rw [if_pos rfl] at h
        obtain ⟨s0, -, h2⟩ := Option.map_eq_some'.1 h
        obtain ⟨-, rfl⟩ := Prod.mk.injEq .. ▸ (Prod.mk.inj h2)
        exact insertName_self_mem d.prop_name styles
    | Author =>
        rw [if_neg (by simp)] at h
        obtain ⟨s0, -, h2⟩ := Option.map_eq_some'.1 h
        obtain ⟨-, rfl⟩ := Prod.mk.injEq .. ▸ (Prod.mk.inj h2)
        exact insertName_self_mem d.prop_name styles
  · intro s d styles hcond
    constructor
    · unfold SpecifiedValues.set_property_from_declaration
      rw [if_neg hcond, if_pos rfl]
      rfl
    · unfold SpecifiedValues.set_property_from_declaration
      rw [if_neg hcond, if_neg (by simp)]
      rfl
  · intro s d1 d2 styles s1 st1 hWF h1imp h2imp hname hm hidx h1
    unfold SpecifiedValues.set_property_from_declaration at h1
    rw [if_neg (by simp [h1imp]), if_pos h1imp, if_pos rfl] at h1
    unfold SpecifiedValues.set_parsed_property_user_agent at h1
    rw [expand_eq_set_of_ne_marker s hm] at h1
    obtain ⟨s0, hset, hpair⟩ := Option.map_eq_some'.1 h1
    obtain ⟨rfl, rfl⟩ := Prod.mk.inj hpair
    have hmemstyles : d2.prop_name ∈ insertName d1.prop_name styles := by
      rw [hname]
      exact insertName_self_mem d1.prop_name styles
    constructor
    · simp [SpecifiedValues.set_property_from_declaration, h2imp, hmemstyles]
    · exact lookup_set_absent hWF hm hidx hset

theorem c4_witness :
    (fillStore.set_property_from_declaration
        ({ prop_name := 1, property := ParsedProperty.Fill (SpecifiedValue.Specified 9),
           important := false } : Declaration Nat Nat) Origin.Author [1] =
      some (fillStore, [1])) ∧
    fillStore.lookup PropertyId.Fill =
      some (ParsedProperty.Fill (SpecifiedValue.Specified 3)) :=
  c4_declaration_importer_rules.2.2.2 (SpecifiedValues.default Nat)
    { prop_name := 1, property := ParsedProperty.Fill (SpecifiedValue.Specified 3),
      important := true }
    { prop_name := 1, property := ParsedProperty.Fill (SpecifiedValue.Specified 9),
      important := false }
    [] fillStore [1] (wf_default Nat) rfl rfl rfl (by decide) rfl rfl

/-- C1: `SpecifiedValue::compute` resolves a specified value by the cascade
algorithm — `Unspecified` to the parent's field when the kind inherits
automatically and to the type default otherwise, `Inherit` to the parent's
field, `Specified v` to `v` — and then applies the kind-specific `compute`
finalization; in `to_computed_values` a kind with a stored slot is resolved
from that slot's payload and a kind with no slot is resolved exactly as
`Unspecified`; in particular a non-inheriting kind with no stored value
computes to the type default (whose finalization is the identity on it, per
the spec's catalogue) whatever non-default value the parent holds. -/
theorem c1_cascade_resolution_algorithm (V CV : Type) :
    (∀ (P : PropertyImpl V CV) (sv : SpecifiedValue V) (src : V) (cv : CV),
      sv.compute P src cv = P.compute
        (match sv with
         | .Unspecified => if P.inherits_automatically then src else P.defaultVal
         | .Inherit => src
         | .Specified v => v) cv) ∧
    (∀ (C : Catalogue V) (s : SpecifiedValues V), StoreWF s →
      ∀ (id : PropertyId) (cv : ComputedValues V),
      (∀ p : ParsedProperty V, s.lookup id = some p →
        computeProp C s id cv =
          some (updateCV cv id (p.payload.compute (C id) (cv id) cv))) ∧
      (s.property_index id = none →
        computeProp C s id cv =
          some (updateCV cv id
            ((SpecifiedValue.Unspecified).compute (C id) (cv id) cv)))) ∧
    (∀ (C : Catalogue V) (s : SpecifiedValues V) (id : PropertyId)
      (cv out : ComputedValues V), StoreWF s →
      id ∈ computeOrder →
      (C id).inherits_automatically = false →
      (∀ x : ComputedValues V, (C id).compute (C id).defaultVal x = (C id).defaultVal) →
      s.property_index id = none →
      s.to_computed_values C cv = some out →
      out id = (C id).defaultVal) := by
  refine ⟨?_, ?_, ?_⟩
  · intro P sv src cv
    cases sv <;> rfl
  · intro C s hWF id cv
    constructor
    · intro p hp
      rw [computeProp_eq hWF]
      simp [SpecifiedValues.specAt, hp]
    · intro hidx
      rw [computeProp_eq hWF]
      simp [SpecifiedValues.specAt, SpecifiedValues.lookup, hidx]
  · intro C s id cv out hWF hmem hinh hdef hidx hout
    obtain ⟨mid, -, hfield, -⟩ := to_computed_field hWF C hmem hout
    rw [hfield]
    have hspec : s.specAt id = SpecifiedValue.Unspecified := by
      simp [SpecifiedValues.specAt, SpecifiedValues.lookup, hidx]
    rw [hspec]
    unfold SpecifiedValue.compute
    simp only [hinh]
    simp only [Bool.false_eq_true, if_false]
    exact hdef mid

theorem c1_witness :
    ((SpecifiedValues.default Nat).to_computed_values sampleCatalogue
        (fun _ => 5)).map (fun out => out PropertyId.Opacity) = some 0 := by
  obtain ⟨out, hout⟩ : ∃ x, (SpecifiedValues.default Nat).to_computed_values
      sampleCatalogue (fun _ => 5) = some x := ⟨_, rfl⟩
  rw [hout]
  have h0 := (c1_cascade_resolution_algorithm Nat (ComputedValues Nat)).2.2
    sampleCatalogue (SpecifiedValues.default Nat) PropertyId.Opacity
    (fun _ => 5) out (wf_default Nat) (by decide) rfl (fun x => rfl) rfl hout
  rw [Option.map_some', h0]
  rfl

/-- C6: in `to_computed_values`, font-size is the head of the processing
order, and the finalization of every other kind is applied against an
in-progress `ComputedValues` whose font-size field already holds this
element's final computed font size. -/
theorem c6_font_size_resolved_first {V : Type} (C : Catalogue V)
    (s : SpecifiedValues V) (hWF : StoreWF s) :
    computeOrder.head? = some PropertyId.FontSize ∧
    (∀ (cv out : ComputedValues V), s.to_computed_values C cv = some out →
      ∀ id ∈ computeOrder, id ≠ PropertyId.FontSize →
      ∃ mid : ComputedValues V,
        out id = (s.specAt id).compute (C id) (mid id) mid ∧
        mid PropertyId.FontSize = out PropertyId.FontSize) := by
  refine ⟨rfl, ?_⟩
  intro cv out hout id hmem hne
  obtain ⟨mid, -, hfield, hfs⟩ := to_computed_field hWF C hmem hout
  exact ⟨mid, hfield, hfs hne⟩

theorem c6_witness : computeOrder.head? = some PropertyId.FontSize :=
  (c6_font_size_resolved_first sampleCatalogue (SpecifiedValues.default Nat)
    (wf_default Nat)).1

/-- C7: a kind whose stored specified value is explicit `inherit` computes
to exactly the parent's computed value, independently of the kind's
automatic-inheritance flag, provided the kind-specific finalization leaves
the parent's computed value unchanged (the per-kind finalizations live in
`property_defs.rs`, outside the inspected sources; the spec's §8 asserts
this preservation for the whole catalogue). -/
theorem c7_explicit_inherit_copies_parent {V : Type} (C : Catalogue V)
    (s : SpecifiedValues V) (hWF : StoreWF s) (id : PropertyId)
    (p : ParsedProperty V) (cv out : ComputedValues V)
    (hmem : id ∈ computeOrder)
    (hlook : s.lookup id = some p)
    (hpay : p.payload = SpecifiedValue.Inherit)
    (hfix : ∀ x : ComputedValues V, (C id).compute (cv id) x = cv id)
    (hout : s.to_computed_values C cv = some out) :
    out id = cv id := by
  obtain ⟨mid, hmid, hfield, -⟩ := to_computed_field hWF C hmem hout
  rw [hfield]
  have hspec : s.specAt id = SpecifiedValue.Inherit := by
    simp [SpecifiedValues.specAt, hlook, hpay]
  rw [hspec]
  unfold SpecifiedValue.compute
  simp only []
  rw [hmid]
  exact hfix mid

theorem c7_witness :
    (inhStore.to_computed_values sampleCatalogue (fun _ => 7)).map
      (fun out => out PropertyId.Opacity) = some 7 := by
  obtain ⟨out, hout⟩ : ∃ x, inhStore.to_computed_values sampleCatalogue
      (fun _ => 7) = some x := ⟨_, rfl⟩
  rw [hout]
  have hWF : StoreWF inhStore :=
    wf_set_property (wf_default Nat)
      (rfl : (SpecifiedValues.default Nat).set_property
        (ParsedProperty.Opacity SpecifiedValue.Inherit) true = some inhStore)
  have h7 := c7_explicit_inherit_copies_parent sampleCatalogue inhStore hWF
    PropertyId.Opacity (ParsedProperty.Opacity SpecifiedValue.Inherit)
    (fun _ => 7) out (by decide) rfl rfl (fun x => rfl) hout
  rw [Option.map_some', h7]

lemma parse_one_total {V E : Type} {s : SpecifiedValues V} (hWF : StoreWF s)
    (attr : AttrName) (vo : ValueOutcome V) :
    ∃ s', @SpecifiedValues.parse_one_presentation_attribute V E s attr vo =
        some (Except.ok s') ∧ StoreWF s' ∧
      ((∃ e, parse_property attr vo false = Except.error e) → s' = s) := by
  cases hp : parse_property attr vo false with
  | ok prop =>
      have hm := parse_property_no_shorthand hp
      obtain ⟨s', hset, hWF'⟩ := set_parsed_property_total hWF hm
      refine ⟨s', ?_, hWF', ?_⟩
      · simp [SpecifiedValues.parse_one_presentation_attribute, hp, hset]
      · rintro ⟨e, he⟩
        exact Except.noConfusion he
  | error e =>
      refine ⟨s, ?_, hWF, fun _ => rfl⟩
      cases e <;> simp [SpecifiedValues.parse_one_presentation_attribute, hp]

lemma parse_bag_total {V E : Type} :
    ∀ (bag : List (PAttr V E)) (s : SpecifiedValues V), StoreWF s →
    (∀ o, PAttr.xmlLang o ∈ bag → ∃ v, o = Except.ok v) →
    (∀ o, PAttr.xmlSpace o ∈ bag → ∃ v, o = Except.ok v) →
    ∃ s', s.parse_presentation_attributes bag = some (Except.ok s') := by
  intro bag
  induction bag with
  | nil => exact fun s _ _ _ => ⟨s, rfl⟩
  | cons a rest ih =>
      intro s hWF hlang hspace
      have hlang' : ∀ o, PAttr.xmlLang o ∈ rest → ∃ v, o = Except.ok v :=
        fun o ho => hlang o (List.mem_cons_of_mem a ho)
      have hspace' : ∀ o, PAttr.xmlSpace o ∈ rest → ∃ v, o = Except.ok v :=
        fun o ho => hspace o (List.mem_cons_of_mem a ho)
      cases a with
      | xmlLang o =>
          obtain ⟨v, rfl⟩ := hlang o (List.mem_cons_self _ _)
          obtain ⟨s1, hset, hWF1⟩ := set_parsed_property_total hWF
            (show (ParsedProperty.XmlLang (SpecifiedValue.Specified v)
                : ParsedProperty V).get_property_id ≠ PropertyId.Marker
              by simp [ParsedProperty.get_property_id])
          obtain ⟨s', hs'⟩ := ih s1 hWF1 hlang' hspace'
          exact ⟨s', by simp [SpecifiedValues.parse_presentation_attributes,
            hset, hs']⟩
      | xmlSpace o =>
          obtain ⟨v, rfl⟩ := hspace o (List.mem_cons_self _ _)
          obtain ⟨s1, hset, hWF1⟩ := set_parsed_property_total hWF
            (show (ParsedProperty.XmlSpace (SpecifiedValue.Specified v)
                : ParsedProperty V).get_property_id ≠ PropertyId.Marker
              by simp [ParsedProperty.get_property_id])
          obtain ⟨s', hs'⟩ := ih s1 hWF1 hlang' hspace'
          exact ⟨s', by simp [SpecifiedValues.parse_presentation_attributes,
            hset, hs']⟩
      | other name vo =>
          obtain ⟨s1, hone, hWF1, -⟩ := @parse_one_total V E s hWF name vo
          obtain ⟨s', hs'⟩ := ih s1 hWF1 hlang' hspace'
          exact ⟨s', by simp [SpecifiedValues.parse_presentation_attributes,
            hone, hs']⟩

/-- C5 counterexample: a bag holding one `xml:space` attribute whose direct
value parse fails makes `parse_presentation_attributes` return that error to
the caller (the `?` on `attr.parse(value)` propagates it), so the claim that
parsing presentation attributes never returns an error for any attribute bag
is false. -/
theorem c5_counterexample_xml_space_error :
    (SpecifiedValues.default Nat).parse_presentation_attributes
      [PAttr.xmlSpace (Except.error 7)] = some (Except.error 7) := rfl

/-- C5 (amended): `parse_one_presentation_attribute` itself never returns an
error — a recognized-but-malformed value (unexpected token, truncated input,
or other error) is ignored with the store unchanged — and a malformed
presentation attribute anywhere in a bag is skipped with processing of the
remaining attributes unaffected; the whole-bag parse returns no error
provided every `xml:lang` / `xml:space` attribute in the bag parses
successfully (their failures propagate, per the counterexample). -/
theorem c5_presentation_attribute_error_recovery {V E : Type} :
    (∀ (s : SpecifiedValues V) (attr : AttrName) (vo : ValueOutcome V),
      StoreWF s →
      ∃ s', @SpecifiedValues.parse_one_presentation_attribute V E s attr vo =
          some (Except.ok s') ∧
        ((∃ e, parse_property attr vo false = Except.error e) → s' = s)) ∧
    (∀ (s : SpecifiedValues V) (name : AttrName) (vo : ValueOutcome V)
      (rest : List (PAttr V E)) (e : ParseErrKind),
      parse_property name vo false = Except.error e →
      s.parse_presentation_attributes (PAttr.other name vo :: rest) =
        s.parse_presentation_attributes rest) ∧
    (∀ (s : SpecifiedValues V) (bag : List (PAttr V E)), StoreWF s →
      (∀ o, PAttr.xmlLang o ∈ bag → ∃ v, o = Except.ok v) →
      (∀ o, PAttr.xmlSpace o ∈ bag → ∃ v, o = Except.ok v) →
      ∃ s', s.parse_presentation_attributes bag = some (Except.ok s')) := by
  refine ⟨?_, ?_, ?_⟩
  · intro s attr vo hWF
    obtain ⟨s', hone, -, hunch⟩ := @parse_one_total V E s hWF attr vo
    exact ⟨s', hone, hunch⟩
  · intro s name vo rest e hp
    have h1 : @SpecifiedValues.parse_one_presentation_attribute V E s name vo =
        some (Except.ok s) := by
      cases e <;> simp [SpecifiedValues.parse_one_presentation_attribute, hp]
    simp [SpecifiedValues.parse_presentation_attributes, h1]
  · intro s bag hWF hlang hspace
    exact parse_bag_total bag s hWF hlang hspace

theorem c5_witness :
    (SpecifiedValues.default Nat).parse_presentation_attributes
        (PAttr.other (AttrName.css PropertyId.StrokeWidth)
            (ValueOutcome.err ParseErrKind.unexpectedToken) ::
          ([] : List (PAttr Nat Nat))) =
      (SpecifiedValues.default Nat).parse_presentation_attributes [] :=
  c5_presentation_attribute_error_recovery.2.1 (SpecifiedValues.default Nat)
    (AttrName.css PropertyId.StrokeWidth)
    (ValueOutcome.err ParseErrKind.unexpectedToken) []
    ParseErrKind.unexpectedToken rfl
